import Mathlib

/-!
Shallow embedding of `src/main.ts` of the workflow-timer GitHub Action.

The source file contains two script variants (an older narrative-mode
script and the newer table-mode script); they share `postTimings`,
`getSeverity` and `formatDuration` verbatim.  Pure computations are
translated directly; the I/O surface (Octokit REST calls) is made
explicit: lists of comments, runs and jobs are passed in as values, and
the comment-publishing side effects of `postTimings` are reified as a
list of API calls.  JavaScript numbers holding percentages are embedded
as rationals; timestamps (`Date.getTime()` milliseconds) as integers.
-/

namespace WorkflowTimer

/-! ### String utilities

JavaScript's `String.prototype.includes` (substring test), modelled on
the character lists underlying Lean strings. -/

/-- Is the first character list a prefix of the second? -/
def isPrefixL : List Char → List Char → Bool
  | [], _ => true
  | _ :: _, [] => false
  | a :: as, b :: bs => a == b && isPrefixL as bs

/-- Does the pattern occur as a contiguous subsequence of the list? -/
def containsSeq (pat : List Char) : List Char → Bool
  | [] => isPrefixL pat []
  | c :: cs => isPrefixL pat (c :: cs) || containsSeq pat cs

/-- JavaScript `s.includes(pat)`: substring containment. -/
def includesStr (s pat : String) : Bool :=
  containsSeq pat.data s.data

/-! ### The marker and the comment publisher (`postTimings`) -/

/-- `const header = "⏱ Workflow Timer ⏱"`: the fixed marker substring
embedded in every published comment body. -/
def header : String := "⏱ Workflow Timer ⏱"

/-- An existing comment on the pull request, as returned by
`issues.listComments`: an id and an optional body (the REST type marks
`body` optional, hence `comment.body?.includes(header)` in the source). -/
structure IssueComment where
  id : Nat
  body : Option String
deriving DecidableEq

/-- The predicate `comment.body?.includes(header)` from `postTimings`. -/
def hasMarker (c : IssueComment) : Bool :=
  match c.body with
  | some b => includesStr b header
  | none => false

/-- A reified GitHub API mutation issued by `postTimings`. -/
inductive ApiCall where
  | updateComment (id : Nat) (body : String)
  | createComment (body : String)
deriving DecidableEq

/-- Is the call a `createComment`? -/
def ApiCall.isCreate : ApiCall → Bool
  | .createComment _ => true
  | _ => false

/-- Is the call an `updateComment`? -/
def ApiCall.isUpdate : ApiCall → Bool
  | .updateComment _ _ => true
  | _ => false

/-- `postTimings(client, body)`: lists the existing comments, finds the
first one whose body includes the marker (`comments.data.find(...)`),
and either updates that comment in place or creates a new one.  The
comment list is passed in as the value the `listComments` call returned,
and the mutations performed are returned as a list of `ApiCall`s. -/
def postTimings (comments : List IssueComment) (body : String) : List ApiCall :=
  match comments.find? hasMarker with
  | some previousTimings => [.updateComment previousTimings.id body]
  | none => [.createComment body]

/-! ### Severity bucketing (`getSeverity`) -/

/-- The result record of `getSeverity`: a change description and an
emoji glyph. -/
structure Severity where
  change : String
  emoji : String
deriving DecidableEq

/-- `getSeverity(percentage)` from the source: six-way cascade of
strict comparisons on the percent difference.  The two extreme tiers
carry Markdown bold markers (`**`) around the change text in the
source, reproduced here verbatim. -/
def getSeverity (percentage : ℚ) : Severity :=
  if percentage > 50 then
    ⟨"**regressed severely**", "😭"⟩
  else if percentage > 20 then
    ⟨"regressed a bit", "😥"⟩
  else if percentage > 0 then
    ⟨"regressed slightly", "🙁"⟩
  else if percentage > -20 then
    ⟨"improved slightly", "🙂"⟩
  else if percentage > -50 then
    ⟨"improved a lot", "🥳"⟩
  else
    ⟨"**improved significantly**", "🤯"⟩

/-- The six severity tiers as half-open intervals of the percent delta,
written from the spec's interval table (tier 0 the most severe
regression, tier 5 the most significant improvement).  Used to state
that the tiers partition the rationals. -/
def tierCond (i : Fin 6) (p : ℚ) : Prop :=
  if i.val = 0 then 50 < p
  else if i.val = 1 then 20 < p ∧ p ≤ 50
  else if i.val = 2 then 0 < p ∧ p ≤ 20
  else if i.val = 3 then -20 < p ∧ p ≤ 0
  else if i.val = 4 then -50 < p ∧ p ≤ -20
  else p ≤ -50

/-! ### Duration formatting (`formatDuration`) -/

/-- `formatDuration(totalSeconds)` from the source: takes the absolute
value, splits into whole minutes (`Math.floor(t / 60)`) and leftover
seconds (`Math.trunc(t - minutes * 60)`, the remainder for integer
input), and renders "Nmin Ss", "Nmins Ss" or "Ss".  The input is the
integer number of seconds (durations are produced by `Math.round`). -/
def formatDuration (totalSeconds : ℤ) : String :=
  let t := totalSeconds.natAbs
  let minutes := t / 60
  let secs := t % 60
  if minutes == 1 then
    toString minutes ++ "min " ++ toString secs ++ "s"
  else if minutes > 0 then
    toString minutes ++ "mins " ++ toString secs ++ "s"
  else
    toString secs ++ "s"

/-! ### The timing collector (`getTimings`) -/

/-- One entry of `listJobsForWorkflowRun(...).data.jobs`: a job name,
its start time, an optional completion time (absent while the job is
still running or was cancelled), an optional `html_url` (nullable in
the REST schema) and the API `url`.  Timestamps are embedded as
`Date.getTime()` milliseconds. -/
structure Job where
  name : String
  startedAt : ℤ
  completedAt : Option ℤ
  htmlUrl : Option String
  url : String
deriving DecidableEq

/-- The `JobTimes` record of the source: name, display URL and duration
in whole seconds. -/
structure JobTimes where
  name : String
  url : String
  duration : ℤ
deriving DecidableEq

/-- `Math.round(milliseconds / 1000)`: JavaScript rounds half away from
zero toward positive infinity, i.e. the floor of the quotient plus one
half. -/
def durationSecs (milliseconds : ℤ) : ℤ :=
  (milliseconds + 500).fdiv 1000

/-- The loop body of `getTimings`: walk the fetched job list in order;
skip jobs not in the monitored name list; for a monitored job without a
completion timestamp record a warning (reified here by the job's name)
and continue; otherwise append the job's timing with
`url: html_url || url` and the rounded duration.  Returns the collected
timings together with the warnings, in emission order. -/
def collectTimings (jobs : List Job) (jobNames : List String) :
    List JobTimes × List String :=
  match jobs with
  | [] => ([], [])
  | job :: rest =>
    let acc := collectTimings rest jobNames
    if jobNames.contains job.name then
      match job.completedAt with
      | none => (acc.1, job.name :: acc.2)
      | some completed =>
        (⟨job.name, job.htmlUrl.getD job.url,
          durationSecs (completed - job.startedAt)⟩ :: acc.1, acc.2)
    else
      acc

/-- The run metadata consumed by `getTimings`: the
`getWorkflowRun` response fields it reads, plus the job list returned
by `listJobsForWorkflowRun` for the same run id. -/
structure RunData where
  headSha : String
  htmlUrl : String
  createdAt : String
  jobs : List Job
deriving DecidableEq

/-- The `WorkflowRun` record of the source: run id, display URL,
display name, collected job timings and start time. -/
structure WorkflowRun where
  runId : Nat
  htmlUrl : String
  displayName : String
  jobs : List JobTimes
  started : String
deriving DecidableEq

/-- `getTimings(client, runId, jobNames)`: fetches the run and its job
list (passed in here as `run`), collects the monitored timings, and if
the collected list is empty emits a diagnostic warning listing every
available job name.  Returns the `WorkflowRun` (display name the first
seven characters of the commit hash) together with the per-job warnings
and the optional empty-selection diagnostic. -/
def getTimings (runId : Nat) (run : RunData) (jobNames : List String) :
    WorkflowRun × List String × Option (List String) :=
  let collected := collectTimings run.jobs jobNames
  let diagnostic :=
    if collected.1.isEmpty then some (run.jobs.map (·.name)) else none
  (⟨runId, run.htmlUrl, run.headSha.take 7, collected.1, run.createdAt⟩,
   collected.2, diagnostic)

/-! ### The baseline selector (`getDefaultBranchTimings`) -/

/-- One entry of `listWorkflowRuns(...).data.workflow_runs`: the fields
the selector reads.  `run_started_at` is optional in the REST schema,
hence the `!latestRun.run_started_at` guard in the source. -/
structure HistRun where
  id : Nat
  headBranch : String
  status : String
  conclusion : String
  runStartedAt : Option String
  updatedAt : String
deriving DecidableEq

/-- The filter predicate of `getDefaultBranchTimings` (and of the older
variant's `defaultBranchRunTime`): head branch equals the trunk branch,
status is "completed" and conclusion is "success". -/
def baselineFilter (branch : String) (run : HistRun) : Bool :=
  run.headBranch == branch && run.status == "completed" &&
    run.conclusion == "success"

/-- The selection step of `getDefaultBranchTimings`:
`historicalRuns.filter(...).shift()`, i.e. the head of the filtered
list, trusting the feed's newest-first ordering. -/
def selectBaseline (runs : List HistRun) (branch : String) : Option HistRun :=
  (runs.filter (baselineFilter branch)).head?

/-- `getDefaultBranchTimings(client, branch, workflow, jobNames)`: the
historical run list for the workflow is passed in as `runs`; the
timings fetch for a chosen run id is abstracted as the function
`fetch`.  If no filtered run survives, or the chosen run has no
`run_started_at`, the function returns `undefined` (here `none`)
without fetching any timings; otherwise it fetches the chosen run's
timings and overrides the display name with the branch name. -/
def getDefaultBranchTimings (fetch : Nat → WorkflowRun)
    (runs : List HistRun) (branch : String) : Option WorkflowRun :=
  match selectBaseline runs branch with
  | none => none
  | some latestRun =>
    match latestRun.runStartedAt with
    | none => none
    | some _ => some { fetch latestRun.id with displayName := branch }

/-! ### The report formatter (`formatComment` and `commentRow`) -/

/-- The `CommentInputs` record of the source.  The free-form `message`
comes from `core.getInput("message")`, which yields the empty string
when the input is not provided; the source's `if (comment.message)`
truthiness test is therefore an emptiness test. -/
structure CommentInputs where
  defaultBranch : Option WorkflowRun
  currentRun : WorkflowRun
  previousRuns : List WorkflowRun
  jobNames : List String
  message : String
deriving DecidableEq

/-- The homepage field of `package.json` (outside `src/`), interpolated
into the comment footer; its value is irrelevant to every claim. -/
def packageHomepage : String :=
  "https://github.com/Michael-F-Bryan/workflow-timer"

/-- The fixed footer line of the comment body. -/
def botFooter : String :=
  "🤖 *Beep. Boop. I'm a bot. If you find any issues, please report them to <"
    ++ packageHomepage ++ ">.*"

/-- `commentRow(run, columns, name?)`: one table row.  The label links
the display name (no caller ever passes the optional `name` override,
so the embedding keeps it as an explicit `Option` argument) to the
run's URL; then one cell per column, either the formatted duration
linked to the job's URL when `jobs.find(j => j.name == column)`
succeeds, or "-" when the run lacks that job. -/
def commentRow (run : WorkflowRun) (columns : List String)
    (nameOverride : Option String) : String :=
  let name := nameOverride.getD run.displayName
  let label := "[" ++ name ++ "](" ++ run.htmlUrl ++ ")"
  let cells := columns.map fun column =>
    match run.jobs.find? (fun j => j.name == column) with
    | some job => "[" ++ formatDuration job.duration ++ "](" ++ job.url ++ ")"
    | none => "-"
  "| " ++ String.intercalate " | " (label :: cells) ++ " |"

/-- The line list built by `formatComment` before `lines.join("\n")`:
the marker header, a blank, the optional message, the table header and
separator rows, the default-branch row when present, the current-run
row, and the footer.  `comment.previousRuns` is never read by the
source function. -/
def formatCommentLines (comment : CommentInputs) : List String :=
  let lines0 := [header, ""]
  let lines1 :=
    if comment.message.isEmpty then lines0
    else lines0 ++ [comment.message, ""]
  let tableHeader := "Run" :: comment.jobNames
  let lines2 := lines1 ++
    ["| " ++ String.intercalate " | " tableHeader ++ " |",
     "| " ++ String.intercalate " | " (tableHeader.map fun _ => "---") ++ " |"]
  let lines3 :=
    match comment.defaultBranch with
    | some d => lines2 ++ [commentRow d comment.jobNames none]
    | none => lines2
  let lines4 := lines3 ++ [commentRow comment.currentRun comment.jobNames none]
  lines4 ++ ["", "---", "", botFooter]

/-- `formatComment(comment)`: the joined comment body. -/
def formatComment (comment : CommentInputs) : String :=
  String.intercalate "\n" (formatCommentLines comment)

/-! ## Helper lemmas -/

/-- `find?` returns the head of a decomposition whose prefix contains
no match. -/
theorem find?_append_cons {α : Type} (p : α → Bool) (pre post : List α)
    (c : α) (hpre : ∀ x ∈ pre, p x = false) (hc : p c = true) :
    (pre ++ c :: post).find? p = some c := by
  induction pre with
  | nil => simpa using List.find?_cons_of_pos post hc
  | cons a as ih =>
    have ha : p a = false := hpre a (by simp)
    rw [List.cons_append, List.find?_cons_of_neg _ (by simp [ha])]
    exact ih fun x hx => hpre x (by simp [hx])

/-- The head of a filtered list is the first match. -/
theorem filter_head?_eq_find? {α : Type} (p : α → Bool) (l : List α) :
    (l.filter p).head? = l.find? p := by
  induction l with
  | nil => rfl
  | cons a as ih =>
    by_cases h : p a
    · simp [List.filter_cons, h, List.find?_cons_of_pos as h]
    · simp [List.filter_cons, h, List.find?_cons_of_neg as h, ih]

/-- `Nat.digitChar` collapses to the asterisk above 15. -/
theorem digitChar_big (m : Nat) (h : 16 ≤ m) : Nat.digitChar m = '*' := by
  have hne : ∀ k < 16, m ≠ k := fun k hk => by omega
  unfold Nat.digitChar
  simp [hne 0 (by norm_num), hne 1 (by norm_num), hne 2 (by norm_num),
    hne 3 (by norm_num), hne 4 (by norm_num), hne 5 (by norm_num),
    hne 6 (by norm_num), hne 7 (by norm_num), hne 8 (by norm_num),
    hne 9 (by norm_num), hne 10 (by norm_num), hne 11 (by norm_num),
    hne 12 (by norm_num), hne 13 (by norm_num), hne 14 (by norm_num),
    hne 15 (by norm_num)]

/-- `Nat.digitChar` never yields a minus sign. -/
theorem digitChar_ne_minus (m : Nat) : Nat.digitChar m ≠ '-' := by
  by_cases hm : m < 16
  · exact (by decide : ∀ k < 16, Nat.digitChar k ≠ '-') m hm
  · rw [digitChar_big m (by omega)]
    decide

/-- `Nat.toDigitsCore` only prepends digit characters. -/
theorem toDigitsCore_no_minus (b fuel n : Nat) (acc : List Char)
    (hacc : '-' ∉ acc) : '-' ∉ Nat.toDigitsCore b fuel n acc := by
  induction fuel generalizing n acc with
  | zero => simpa [Nat.toDigitsCore] using hacc
  | succ fuel ih =>
    rw [Nat.toDigitsCore]
    have hcons : '-' ∉ Nat.digitChar (n % b) :: acc := by
      intro hmem
      rcases List.mem_cons.mp hmem with h1 | h2
      · exact digitChar_ne_minus _ h1.symm
      · exact hacc h2
    split
    · exact hcons
    · exact ih _ _ hcons

/-- The decimal rendering of a natural number contains no minus sign. -/
theorem toString_nat_no_minus (n : Nat) : '-' ∉ (toString n).data := by
  show '-' ∉ Nat.toDigitsCore 10 (n + 1) n []
  exact toDigitsCore_no_minus 10 (n + 1) n [] (by simp)

/-- The six tier conditions are mutually exclusive. -/
theorem tierCond_unique (p : ℚ) (i j : Fin 6) (hi : tierCond i p)
    (hj : tierCond j p) : i = j := by
  fin_cases i <;> fin_cases j <;> simp_all [tierCond] <;> linarith

/-- Every percent delta satisfies some tier condition. -/
theorem tierCond_total (p : ℚ) : ∃ i : Fin 6, tierCond i p := by
  by_cases h1 : 50 < p
  · exact ⟨⟨0, by omega⟩, by simpa [tierCond] using h1⟩
  by_cases h2 : 20 < p
  · exact ⟨⟨1, by omega⟩, by simp [tierCond]; exact ⟨h2, not_lt.mp h1⟩⟩
  by_cases h3 : 0 < p
  · exact ⟨⟨2, by omega⟩, by simp [tierCond]; exact ⟨h3, not_lt.mp h2⟩⟩
  by_cases h4 : -20 < p
  · exact ⟨⟨3, by omega⟩, by simp [tierCond]; exact ⟨h4, not_lt.mp h3⟩⟩
  by_cases h5 : -50 < p
  · exact ⟨⟨4, by omega⟩, by simp [tierCond]; exact ⟨h5, not_lt.mp h4⟩⟩
  · exact ⟨⟨5, by omega⟩, by simp [tierCond]; exact not_lt.mp h5⟩

/-! ## Claim theorems -/

/-- C3: `getSeverity` maps every percent delta to exactly one of six
tiers via half-open intervals — strictly above 50 the severe-regression
tier, then regressed a bit, regressed slightly, improved slightly,
improved a lot, and at or below -50 the significant-improvement tier;
in particular the boundary value 50 lands on the less-severe
"regressed a bit" side.  (The two extreme tier strings carry the
Markdown bold markers of the source.) -/
theorem getSeverity_halfopen_tiers (p : ℚ) :
    (50 < p → (getSeverity p).change = "**regressed severely**")
    ∧ ((20 < p ∧ p ≤ 50) → (getSeverity p).change = "regressed a bit")
    ∧ ((0 < p ∧ p ≤ 20) → (getSeverity p).change = "regressed slightly")
    ∧ ((-20 < p ∧ p ≤ 0) → (getSeverity p).change = "improved slightly")
    ∧ ((-50 < p ∧ p ≤ -20) → (getSeverity p).change = "improved a lot")
    ∧ (p ≤ -50 → (getSeverity p).change = "**improved significantly**")
    ∧ (getSeverity 50).change = "regressed a bit" := by
  refine ⟨?_, ?_, ?_, ?_, ?_, ?_, by decide⟩
  · intro h
    unfold getSeverity
    split_ifs with g1 g2 g3 g4 g5 <;> first | rfl | (exfalso; linarith)
  · rintro ⟨h1, h2⟩
    unfold getSeverity
    split_ifs with g1 g2 g3 g4 g5 <;> first | rfl | (exfalso; linarith)
  · rintro ⟨h1, h2⟩
    unfold getSeverity
    split_ifs with g1 g2 g3 g4 g5 <;> first | rfl | (exfalso; linarith)
  · rintro ⟨h1, h2⟩
    unfold getSeverity
    split_ifs with g1 g2 g3 g4 g5 <;> first | rfl | (exfalso; linarith)
  · rintro ⟨h1, h2⟩
    unfold getSeverity
    split_ifs with g1 g2 g3 g4 g5 <;> first | rfl | (exfalso; linarith)
  · intro h
    unfold getSeverity
    split_ifs with g1 g2 g3 g4 g5 <;> first | rfl | (exfalso; linarith)

/-- C3 witness: the percent delta 30 falls in the 20-to-50 tier and is
reported as "regressed a bit". -/
theorem getSeverity_halfopen_tiers_witness :
    (getSeverity 30).change = "regressed a bit" :=
  (getSeverity_halfopen_tiers 30).2.1 (by decide)

/-- C4 counterexample: at the boundary value -50 the code yields the
significant-improvement tier (the `percentage > -50` test is strict),
not "improved a lot" as claimed. -/
theorem getSeverity_neg_fifty_counterexample :
    (getSeverity (-50)).change = "**improved significantly**"
    ∧ (getSeverity (-50)).change ≠ "improved a lot" := by
  constructor
  · decide
  · decide

/-- C4 amended: severity bucketing assigns every rational to exactly
one of the six tiers, and at the boundaries `getSeverity` yields 50 →
"regressed a bit" and 0 → "improved slightly" as claimed, but -50 →
"**improved significantly**": on the improvement side a boundary value
belongs to the more-significant tier, because every branch test of the
cascade is a strict greater-than. -/
theorem severity_partition_boundaries :
    (∀ p : ℚ, ∃! i : Fin 6, tierCond i p)
    ∧ (getSeverity 50).change = "regressed a bit"
    ∧ (getSeverity (-50)).change = "**improved significantly**"
    ∧ (getSeverity 0).change = "improved slightly" := by
  refine ⟨?_, by decide, by decide, by decide⟩
  intro p
  obtain ⟨i, hi⟩ := tierCond_total p
  exact ⟨i, hi, fun j hj => tierCond_unique p j i hj hi⟩

/-- C4 amended witness: tier uniqueness evaluated at the concrete
percent delta 30. -/
theorem severity_partition_boundaries_witness :
    ∃! i : Fin 6, tierCond i 30 :=
  severity_partition_boundaries.1 30

/-- C1: for a publish invocation whose report body contains the marker,
`postTimings` updates the first existing comment whose body includes
the marker (issuing no create), and when no comment contains the marker
it issues exactly one create and no update. -/
theorem postTimings_update_or_create (comments : List IssueComment)
    (body : String) (hbody : includesStr body header = true) :
    (∀ pre c post, comments = pre ++ c :: post →
        (∀ x ∈ pre, hasMarker x = false) → hasMarker c = true →
        postTimings comments body = [.updateComment c.id body]
          ∧ (postTimings comments body).countP (·.isCreate) = 0)
    ∧ ((∀ x ∈ comments, hasMarker x = false) →
        postTimings comments body = [.createComment body]
          ∧ (postTimings comments body).countP (·.isCreate) = 1
          ∧ (postTimings comments body).countP (·.isUpdate) = 0) := by
  constructor
  · rintro pre c post rfl hpre hc
    have hfind : (pre ++ c :: post).find? hasMarker = some c :=
      find?_append_cons hasMarker pre post c hpre hc
    refine ⟨by simp [postTimings, hfind], ?_⟩
    simp [postTimings, hfind, ApiCall.isCreate]
  · intro hnone
    have hfind : comments.find? hasMarker = none :=
      List.find?_eq_none.mpr fun x hx => by simp [hnone x hx]
    refine ⟨by simp [postTimings, hfind], ?_, ?_⟩
    · simp [postTimings, hfind, ApiCall.isCreate]
    · simp [postTimings, hfind, ApiCall.isUpdate]

/-- C1 witness: with a marker comment in second position the publish
updates exactly that comment. -/
theorem postTimings_update_or_create_witness :
    postTimings [⟨1, none⟩, ⟨2, some ("x " ++ header)⟩, ⟨3, some header⟩]
        ("report " ++ header)
      = [.updateComment 2 ("report " ++ header)] :=
  ((postTimings_update_or_create
      [⟨1, none⟩, ⟨2, some ("x " ++ header)⟩, ⟨3, some header⟩]
      ("report " ++ header) (by decide)).1
    [⟨1, none⟩] ⟨2, some ("x " ++ header)⟩ [⟨3, some header⟩] rfl
    (by decide) (by decide)).1

/-- C2: the baseline selection is the first entry of the newest-first
run list satisfying the trunk-branch/completed/success filter (no
further recency comparison: the selection is `find?` on the list as
given), and it is `none` rather than an error when no entry passes the
filter. -/
theorem selectBaseline_first (runs : List HistRun) (branch : String) :
    selectBaseline runs branch = runs.find? (baselineFilter branch)
    ∧ (∀ pre r post, runs = pre ++ r :: post →
        (∀ x ∈ pre, baselineFilter branch x = false) →
        baselineFilter branch r = true →
        selectBaseline runs branch = some r)
    ∧ ((∀ r ∈ runs, baselineFilter branch r = false) →
        selectBaseline runs branch = none) := by
  refine ⟨filter_head?_eq_find? _ _, ?_, ?_⟩
  · rintro pre r post rfl hpre hr
    exact (filter_head?_eq_find? (baselineFilter branch) _).trans
      (find?_append_cons _ pre post r hpre hr)
  · intro h
    exact (filter_head?_eq_find? (baselineFilter branch) _).trans
      (List.find?_eq_none.mpr fun x hx => by simp [h x hx])

/-- C2 witness: with a failed trunk run listed first, the selector
picks the second (first successful) entry. -/
theorem selectBaseline_first_witness :
    selectBaseline
        [⟨10, "main", "completed", "failure", some "t0", "u0"⟩,
         ⟨11, "main", "completed", "success", some "t1", "u1"⟩,
         ⟨12, "main", "completed", "success", some "t2", "u2"⟩] "main"
      = some ⟨11, "main", "completed", "success", some "t1", "u1"⟩ :=
  (selectBaseline_first
      [⟨10, "main", "completed", "failure", some "t0", "u0"⟩,
       ⟨11, "main", "completed", "success", some "t1", "u1"⟩,
       ⟨12, "main", "completed", "success", some "t2", "u2"⟩] "main").2.1
    [⟨10, "main", "completed", "failure", some "t0", "u0"⟩]
    ⟨11, "main", "completed", "success", some "t1", "u1"⟩
    [⟨12, "main", "completed", "success", some "t2", "u2"⟩]
    rfl (by decide) (by decide)

/-- C5: `formatDuration` is total on integers, works on the absolute
value of its input, renders one whole minute as "1min Ss", several as
"Mmins Ss" and less than a minute as "Ss" with M the floor division of
the absolute seconds by 60 and S the remainder, never contains a minus
sign, and satisfies the four spec examples. -/
theorem formatDuration_shape (n : ℤ) :
    (n.natAbs / 60 = 1 →
      formatDuration n = "1min " ++ toString (n.natAbs % 60) ++ "s")
    ∧ (1 < n.natAbs / 60 →
      formatDuration n =
        toString (n.natAbs / 60) ++ "mins " ++ toString (n.natAbs % 60) ++ "s")
    ∧ (n.natAbs / 60 = 0 → formatDuration n = toString (n.natAbs % 60) ++ "s")
    ∧ formatDuration (-n) = formatDuration n
    ∧ '-' ∉ (formatDuration n).data
    ∧ formatDuration 0 = "0s" ∧ formatDuration 59 = "59s"
    ∧ formatDuration 61 = "1min 1s" ∧ formatDuration 125 = "2mins 5s" := by
  have habs := toString_nat_no_minus (n.natAbs / 60)
  have hsec := toString_nat_no_minus (n.natAbs % 60)
  refine ⟨?_, ?_, ?_, ?_, ?_, by decide, by decide, by decide, by decide⟩
  · intro h
    simp only [formatDuration, h]
    rfl
  · intro h
    have h1 : (n.natAbs / 60 == 1) = false := by simp; omega
    have h2 : 0 < n.natAbs / 60 := by omega
    simp [formatDuration, h1, h2]
  · intro h
    simp [formatDuration, h]
  · simp [formatDuration]
  · simp only [formatDuration]
    split_ifs with g1 g2
    · simp only [String.data_append, List.mem_append, not_or]
      exact ⟨⟨⟨habs, by decide⟩, hsec⟩, by decide⟩
    · simp only [String.data_append, List.mem_append, not_or]
      exact ⟨⟨⟨habs, by decide⟩, hsec⟩, by decide⟩
    · simp only [String.data_append, List.mem_append, not_or]
      exact ⟨hsec, by decide⟩

/-- C5 witness: sixty-one seconds is one whole minute and one second. -/
theorem formatDuration_shape_witness :
    formatDuration 61 = "1min " ++ toString ((61 : ℤ).natAbs % 60) ++ "s" :=
  (formatDuration_shape 61).1 (by decide)

/-- Unfolding `collectTimings` past an unmonitored job. -/
theorem collectTimings_cons_skip {job : Job} {rest : List Job}
    {jobNames : List String} (hc : jobNames.contains job.name = false) :
    collectTimings (job :: rest) jobNames = collectTimings rest jobNames := by
  simp only [collectTimings]
  rw [hc]
  simp

/-- Unfolding `collectTimings` past a monitored but incomplete job:
the job is skipped and a warning for its name is recorded. -/
theorem collectTimings_cons_incomplete {job : Job} {rest : List Job}
    {jobNames : List String} (hc : jobNames.contains job.name = true)
    (hcomp : job.completedAt = none) :
    collectTimings (job :: rest) jobNames =
      ((collectTimings rest jobNames).1,
       job.name :: (collectTimings rest jobNames).2) := by
  simp only [collectTimings]
  rw [hc, hcomp]
  rfl

/-- Unfolding `collectTimings` past a monitored completed job: its
timing is prepended. -/
theorem collectTimings_cons_complete {job : Job} {rest : List Job}
    {jobNames : List String} {ms : ℤ}
    (hc : jobNames.contains job.name = true)
    (hcomp : job.completedAt = some ms) :
    collectTimings (job :: rest) jobNames =
      (⟨job.name, job.htmlUrl.getD job.url,
          durationSecs (ms - job.startedAt)⟩ :: (collectTimings rest jobNames).1,
       (collectTimings rest jobNames).2) := by
  simp only [collectTimings]
  rw [hc, hcomp]
  rfl

/-- Every collected timing is named after some fetched job. -/
theorem collectTimings_name_mem (jobs : List Job) (jobNames : List String) :
    ∀ t ∈ (collectTimings jobs jobNames).1, t.name ∈ jobs.map Job.name := by
  induction jobs with
  | nil => simp [collectTimings]
  | cons job rest ih =>
    by_cases hc : jobNames.contains job.name = true
    · cases hcomp : job.completedAt with
      | none =>
        intro t ht
        rw [collectTimings_cons_incomplete hc hcomp] at ht
        simp only [List.map_cons]
        exact List.mem_cons_of_mem _ (ih t ht)
      | some ms =>
        intro t ht
        rw [collectTimings_cons_complete hc hcomp] at ht
        rcases List.mem_cons.mp ht with rfl | hmem
        · simp
        · simp only [List.map_cons]
          exact List.mem_cons_of_mem _ (ih t hmem)
    · intro t ht
      rw [collectTimings_cons_skip (by simpa using hc)] at ht
      simp only [List.map_cons]
      exact List.mem_cons_of_mem _ (ih t ht)

/-- The collected timings are exactly the monitored completed jobs of
the fetch, in fetch order, and the warnings exactly the names of the
monitored jobs without a completion timestamp. -/
theorem collectTimings_eq (jobs : List Job) (jobNames : List String) :
    (collectTimings jobs jobNames).1 =
      (jobs.filter fun j =>
          jobNames.contains j.name && j.completedAt.isSome).map
        (fun j => ⟨j.name, j.htmlUrl.getD j.url,
          durationSecs (j.completedAt.getD 0 - j.startedAt)⟩)
    ∧ (collectTimings jobs jobNames).2 =
      (jobs.filter fun j =>
          jobNames.contains j.name && j.completedAt.isNone).map Job.name := by
  induction jobs with
  | nil => exact ⟨rfl, rfl⟩
  | cons job rest ih =>
    by_cases hc : jobNames.contains job.name = true
    · have hm : job.name ∈ jobNames := by simpa using hc
      cases hcomp : job.completedAt with
      | none =>
        rw [collectTimings_cons_incomplete hc hcomp]
        constructor
        · simp [List.filter_cons, hc, hm, hcomp, ih.1]
        · simp [List.filter_cons, hc, hm, hcomp, ih.2]
      | some ms =>
        rw [collectTimings_cons_complete hc hcomp]
        constructor
        · simp [List.filter_cons, hc, hm, hcomp, ih.1]
        · simp [List.filter_cons, hc, hm, hcomp, ih.2]
    · have hc2 : jobNames.contains job.name = false := by simpa using hc
      have hm2 : job.name ∉ jobNames := by simpa using hc2
      rw [collectTimings_cons_skip hc2]
      constructor
      · simp [List.filter_cons, hc2, hm2, ih.1]
      · simp [List.filter_cons, hc2, hm2, ih.2]

/-- C6: the collector excludes every monitored job that lacks a
completion timestamp: the returned timings are exactly the monitored
completed jobs of the fetch, in order, with their rounded durations,
and the warnings exactly the names of the monitored incomplete jobs —
so an incomplete monitored job contributes a warning and no timing,
every monitored completed job is still returned, and the collection is
total, never aborting over one incomplete job. -/
theorem collectTimings_skips_incomplete (jobs : List Job)
    (jobNames : List String) :
    (collectTimings jobs jobNames).1 =
      (jobs.filter fun j =>
          jobNames.contains j.name && j.completedAt.isSome).map
        (fun j => ⟨j.name, j.htmlUrl.getD j.url,
          durationSecs (j.completedAt.getD 0 - j.startedAt)⟩)
    ∧ (collectTimings jobs jobNames).2 =
      (jobs.filter fun j =>
          jobNames.contains j.name && j.completedAt.isNone).map Job.name
    ∧ (∀ j ∈ jobs, jobNames.contains j.name = true → j.completedAt = none →
        j.name ∈ (collectTimings jobs jobNames).2)
    ∧ (∀ j ∈ jobs, jobNames.contains j.name = true →
        ∀ ms, j.completedAt = some ms →
        ∃ t ∈ (collectTimings jobs jobNames).1,
          t.name = j.name ∧ t.url = j.htmlUrl.getD j.url
            ∧ t.duration = durationSecs (ms - j.startedAt)) := by
  obtain ⟨h1, h2⟩ := collectTimings_eq jobs jobNames
  refine ⟨h1, h2, ?_, ?_⟩
  · intro j hj hmon hnone
    have hm : j.name ∈ jobNames := by simpa using hmon
    rw [h2]
    exact List.mem_map.mpr
      ⟨j, List.mem_filter.mpr ⟨hj, by simp [hm, hnone]⟩, rfl⟩
  · intro j hj hmon ms hms
    have hm : j.name ∈ jobNames := by simpa using hmon
    rw [h1]
    refine ⟨⟨j.name, j.htmlUrl.getD j.url,
        durationSecs (j.completedAt.getD 0 - j.startedAt)⟩,
      List.mem_map.mpr
        ⟨j, List.mem_filter.mpr ⟨hj, by simp [hm, hms]⟩, rfl⟩,
      rfl, rfl, ?_⟩
    simp [hms]

/-- C6 witness: the spec's example — monitored build and test jobs,
build still incomplete — yields exactly the test timing (the build job
is excluded) and a warning named "build". -/
theorem collectTimings_skips_incomplete_witness :
    (collectTimings
        [⟨"build", 0, none, none, "ub"⟩, ⟨"test", 0, some 5000, none, "ut"⟩]
        ["build", "test"]).1
      = ([⟨"test", 0, some 5000, none, "ut"⟩] : List Job).map
          (fun j => ⟨j.name, j.htmlUrl.getD j.url,
            durationSecs (j.completedAt.getD 0 - j.startedAt)⟩)
    ∧ "build" ∈ (collectTimings
        [⟨"build", 0, none, none, "ub"⟩, ⟨"test", 0, some 5000, none, "ut"⟩]
        ["build", "test"]).2 :=
  ⟨(collectTimings_skips_incomplete
      [⟨"build", 0, none, none, "ub"⟩, ⟨"test", 0, some 5000, none, "ut"⟩]
      ["build", "test"]).1,
   (collectTimings_skips_incomplete
      [⟨"build", 0, none, none, "ub"⟩, ⟨"test", 0, some 5000, none, "ut"⟩]
      ["build", "test"]).2.2.1
      ⟨"build", 0, none, none, "ub"⟩ (by decide) (by decide) rfl⟩

/-- C8 counterexample, both failing invariants at concrete inputs: a
fetched job whose completion timestamp precedes its start timestamp
produces a negative collected duration, and a fetch containing two
jobs with the same monitored name produces that name twice in the
timing list, so neither the non-negativity nor the at-most-once
invariant holds on the code as stated. -/
theorem collectTimings_invariants_cex :
    ((collectTimings [⟨"build", 1000, some 0, none, "u"⟩] ["build"]).1
        = [⟨"build", "u", -1⟩]
      ∧ ¬ ∀ t ∈ (collectTimings [⟨"build", 1000, some 0, none, "u"⟩]
          ["build"]).1, 0 ≤ t.duration)
    ∧ ((collectTimings [⟨"build", 0, some 1000, none, "u1"⟩,
          ⟨"build", 0, some 2000, none, "u2"⟩] ["build"]).1.map JobTimes.name
        = ["build", "build"]
      ∧ ¬ ((collectTimings [⟨"build", 0, some 1000, none, "u1"⟩,
          ⟨"build", 0, some 2000, none, "u2"⟩]
            ["build"]).1.map JobTimes.name).Nodup) := by
  refine ⟨⟨by decide, by decide⟩, by decide, by decide⟩

/-- C8 amended: provided the fetched jobs carry pairwise-distinct names
and completion never precedes start (both guaranteed by the CI platform
but not checked by the code), every collected timing is monitored, each
monitored name occurs at most once, and every duration is
non-negative. -/
theorem collectTimings_invariants (jobs : List Job) (jobNames : List String)
    (hnodup : (jobs.map Job.name).Nodup)
    (hts : ∀ j ∈ jobs, ∀ ms, j.completedAt = some ms → j.startedAt ≤ ms) :
    (∀ t ∈ (collectTimings jobs jobNames).1, jobNames.contains t.name = true)
    ∧ ((collectTimings jobs jobNames).1.map JobTimes.name).Nodup
    ∧ (∀ t ∈ (collectTimings jobs jobNames).1, 0 ≤ t.duration) := by
  induction jobs with
  | nil => exact ⟨by simp [collectTimings], by simp [collectTimings],
      by simp [collectTimings]⟩
  | cons job rest ih =>
    have hnodup2 : (rest.map Job.name).Nodup :=
      (List.nodup_cons.mp (by simpa using hnodup)).2
    have hname : job.name ∉ rest.map Job.name :=
      (List.nodup_cons.mp (by simpa using hnodup)).1
    have hts2 : ∀ j ∈ rest, ∀ ms, j.completedAt = some ms → j.startedAt ≤ ms :=
      fun j hj => hts j (List.mem_cons_of_mem _ hj)
    obtain ⟨ih1, ih2, ih3⟩ := ih hnodup2 hts2
    by_cases hc : jobNames.contains job.name = true
    · cases hcomp : job.completedAt with
      | none =>
        rw [collectTimings_cons_incomplete hc hcomp]
        exact ⟨ih1, ih2, ih3⟩
      | some ms =>
        rw [collectTimings_cons_complete hc hcomp]
        refine ⟨?_, ?_, ?_⟩
        · intro t ht
          rcases List.mem_cons.mp ht with rfl | hmem
          · exact hc
          · exact ih1 t hmem
        · rw [List.map_cons, List.nodup_cons]
          refine ⟨?_, ih2⟩
          intro hin
          obtain ⟨t, ht, htname⟩ := List.mem_map.mp hin
          have htn : t.name = job.name := htname
          exact hname (htn ▸ collectTimings_name_mem rest jobNames t ht)
        · intro t ht
          rcases List.mem_cons.mp ht with rfl | hmem
          · have hstart : job.startedAt ≤ ms :=
              hts job (List.mem_cons_self _ _) ms hcomp
            show (0 : ℤ) ≤ (ms - job.startedAt + 500).fdiv 1000
            exact Int.fdiv_nonneg (by omega) (by norm_num)
          · exact ih3 t hmem
    · rw [collectTimings_cons_skip (by simpa using hc)]
      exact ⟨ih1, ih2, ih3⟩

/-- C8 amended witness: a well-formed two-job fetch satisfies all
three invariants. -/
theorem collectTimings_invariants_witness :
    (∀ t ∈ (collectTimings
        [⟨"build", 0, some 61000, none, "ub"⟩, ⟨"test", 100, some 5100, none, "ut"⟩]
        ["build", "test"]).1, ["build", "test"].contains t.name = true)
    ∧ ((collectTimings
        [⟨"build", 0, some 61000, none, "ub"⟩, ⟨"test", 100, some 5100, none, "ut"⟩]
        ["build", "test"]).1.map JobTimes.name).Nodup
    ∧ (∀ t ∈ (collectTimings
        [⟨"build", 0, some 61000, none, "ub"⟩, ⟨"test", 100, some 5100, none, "ut"⟩]
        ["build", "test"]).1, 0 ≤ t.duration) :=
  collectTimings_invariants
    [⟨"build", 0, some 61000, none, "ub"⟩, ⟨"test", 100, some 5100, none, "ut"⟩]
    ["build", "test"] (by decide) (by decide)

/-- C9: when no monitored job yields a timing, `getTimings` emits the
diagnostic listing every available job name of the run, and still
returns a `WorkflowRun` with an empty job list instead of failing. -/
theorem getTimings_empty_diagnostic (runId : Nat) (run : RunData)
    (jobNames : List String)
    (h : (collectTimings run.jobs jobNames).1 = []) :
    (getTimings runId run jobNames).1.jobs = []
    ∧ (getTimings runId run jobNames).2.2 = some (run.jobs.map Job.name) := by
  constructor <;> simp [getTimings, h]

/-- C9 witness: monitoring a job name absent from the run produces the
empty-selection diagnostic listing the run's only job. -/
theorem getTimings_empty_diagnostic_witness :
    (getTimings 7 ⟨"abcdef1234", "https://r/7", "t",
        [⟨"deploy", 0, some 1000, none, "u"⟩]⟩ ["build"]).1.jobs = []
    ∧ (getTimings 7 ⟨"abcdef1234", "https://r/7", "t",
        [⟨"deploy", 0, some 1000, none, "u"⟩]⟩ ["build"]).2.2
      = some ["deploy"] :=
  getTimings_empty_diagnostic 7
    ⟨"abcdef1234", "https://r/7", "t", [⟨"deploy", 0, some 1000, none, "u"⟩]⟩
    ["build"] (by decide)

/-- C10: the baseline selector yields `none` both when no historical
run passes the trunk/completed/success filter and when the first
passing run lacks a `run_started_at` timestamp; in either case the
result is `none` for every possible timings fetch, i.e. no timings are
fetched and no error is raised. -/
theorem getDefaultBranchTimings_absent (fetch : Nat → WorkflowRun)
    (runs : List HistRun) (branch : String)
    (h : runs.find? (baselineFilter branch) = none
      ∨ ∃ r, runs.find? (baselineFilter branch) = some r
          ∧ r.runStartedAt = none) :
    getDefaultBranchTimings fetch runs branch = none := by
  have hsel : selectBaseline runs branch = runs.find? (baselineFilter branch) :=
    filter_head?_eq_find? _ _
  rcases h with h | ⟨r, hr, hnone⟩
  · simp [getDefaultBranchTimings, hsel, h]
  · simp [getDefaultBranchTimings, hsel, hr, hnone]

/-- C10 witness: a successful trunk run with no recorded start
timestamp yields no baseline. -/
theorem getDefaultBranchTimings_absent_witness :
    getDefaultBranchTimings (fun _ => ⟨0, "", "", [], ""⟩)
        [⟨20, "main", "completed", "success", none, "u"⟩] "main" = none :=
  getDefaultBranchTimings_absent (fun _ => ⟨0, "", "", [], ""⟩)
    [⟨20, "main", "completed", "success", none, "u"⟩] "main"
    (Or.inr ⟨⟨20, "main", "completed", "success", none, "u"⟩, by decide, rfl⟩)

/-- C7 counterexample: `formatComment` never renders the supplied
historical runs — with one previous run supplied, the output is
character-for-character the output with none supplied, and the
previous run's table row appears nowhere among the emitted lines. -/
theorem formatComment_ignores_previous_runs_cex :
    formatComment ⟨none,
        ⟨1, "https://r/1", "aaaaaaa", [⟨"build", "https://j/1", 61⟩], "t1"⟩,
        [⟨2, "https://r/2", "bbbbbbb", [⟨"build", "https://j/2", 59⟩], "t0"⟩],
        ["build"], ""⟩
      = formatComment ⟨none,
        ⟨1, "https://r/1", "aaaaaaa", [⟨"build", "https://j/1", 61⟩], "t1"⟩,
        [], ["build"], ""⟩
    ∧ commentRow ⟨2, "https://r/2", "bbbbbbb", [⟨"build", "https://j/2", 59⟩], "t0"⟩
        ["build"] none
      ∉ formatCommentLines ⟨none,
        ⟨1, "https://r/1", "aaaaaaa", [⟨"build", "https://j/1", 61⟩], "t1"⟩,
        [⟨2, "https://r/2", "bbbbbbb", [⟨"build", "https://j/2", 59⟩], "t0"⟩],
        ["build"], ""⟩ := by
  constructor
  · rfl
  · decide

/-- C7 amended: the comment's line list is the marker header, the
optional non-empty message, the "Run"-plus-configured-job-names header
row and its separator, then one row per rendered run — the baseline
first when present, then the current run, and no rows for the supplied
historical runs, which the formatter ignores; the message, when
non-empty, sits above the table header row; and each row's cells are
the formatted durations hyperlinked to the job URLs, with "-" for a
column whose job the run lacks. -/
theorem formatComment_table_structure (inputs : CommentInputs) :
    (∀ prevRuns : List WorkflowRun,
      formatComment ⟨inputs.defaultBranch, inputs.currentRun, prevRuns,
        inputs.jobNames, inputs.message⟩ = formatComment inputs)
    ∧ formatCommentLines inputs
      = ([header, ""]
          ++ (if inputs.message.isEmpty then [] else [inputs.message, ""]))
        ++ ("| " ++ String.intercalate " | " ("Run" :: inputs.jobNames) ++ " |")
          :: ("| " ++ String.intercalate " | "
                (("Run" :: inputs.jobNames).map fun _ => "---") ++ " |")
          :: ((match inputs.defaultBranch with
              | some d => [commentRow d inputs.jobNames none]
              | none => [])
            ++ [commentRow inputs.currentRun inputs.jobNames none]
            ++ ["", "---", "", botFooter])
    ∧ (¬inputs.message.isEmpty →
        (formatCommentLines inputs)[2]? = some inputs.message
        ∧ (formatCommentLines inputs)[4]?
          = some ("| " ++ String.intercalate " | "
              ("Run" :: inputs.jobNames) ++ " |"))
    ∧ (inputs.message.isEmpty →
        (formatCommentLines inputs)[2]?
          = some ("| " ++ String.intercalate " | "
              ("Run" :: inputs.jobNames) ++ " |"))
    ∧ (∀ (run : WorkflowRun) (cols : List String), ∃ cells : List String,
        commentRow run cols none
          = "| " ++ String.intercalate " | "
              (("[" ++ run.displayName ++ "](" ++ run.htmlUrl ++ ")") :: cells)
            ++ " |"
        ∧ cells.length = cols.length
        ∧ ∀ i : Nat, cells[i]? = (cols[i]?).map fun column =>
            match run.jobs.find? (fun j => j.name == column) with
            | some job =>
              "[" ++ formatDuration job.duration ++ "](" ++ job.url ++ ")"
            | none => "-") := by
  have hstruct : formatCommentLines inputs
      = ([header, ""]
          ++ (if inputs.message.isEmpty then [] else [inputs.message, ""]))
        ++ ("| " ++ String.intercalate " | " ("Run" :: inputs.jobNames) ++ " |")
          :: ("| " ++ String.intercalate " | "
                (("Run" :: inputs.jobNames).map fun _ => "---") ++ " |")
          :: ((match inputs.defaultBranch with
              | some d => [commentRow d inputs.jobNames none]
              | none => [])
            ++ [commentRow inputs.currentRun inputs.jobNames none]
            ++ ["", "---", "", botFooter]) := by
    by_cases hm : inputs.message.isEmpty <;>
      cases hdb : inputs.defaultBranch <;>
        simp [formatCommentLines, hm, hdb]
  refine ⟨?_, hstruct, ?_, ?_, ?_⟩
  · intro prevRuns
    rfl
  · intro hm
    rw [hstruct]
    simp [hm]
  · intro hm
    rw [hstruct]
    simp [hm]
  · intro run cols
    refine ⟨cols.map fun column =>
      match run.jobs.find? (fun j => j.name == column) with
      | some job => "[" ++ formatDuration job.duration ++ "](" ++ job.url ++ ")"
      | none => "-", rfl, by simp, fun i => by simp⟩

/-- C7 amended witness: with a non-empty message and a single monitored
job, the message sits at line index 2 and the table header row at line
index 4. -/
theorem formatComment_table_structure_witness :
    (formatCommentLines ⟨none,
        ⟨1, "https://r/1", "aaaaaaa", [⟨"build", "https://j/1", 61⟩], "t1"⟩,
        [], ["build"], "hello"⟩)[2]? = some "hello"
    ∧ (formatCommentLines ⟨none,
        ⟨1, "https://r/1", "aaaaaaa", [⟨"build", "https://j/1", 61⟩], "t1"⟩,
        [], ["build"], "hello"⟩)[4]?
      = some ("| " ++ String.intercalate " | " ("Run" :: ["build"]) ++ " |") :=
  (formatComment_table_structure ⟨none,
      ⟨1, "https://r/1", "aaaaaaa", [⟨"build", "https://j/1", 61⟩], "t1"⟩,
      [], ["build"], "hello"⟩).2.2.1 (by decide)

end WorkflowTimer
